import Mathlib

/-!
# Verification of the perplexity-source-tracker server core

This file gives a shallow embedding of the core logic of `server.js` (and the
schema/seed module it imports) of the perplexity-source-tracker repository, and
proves or refutes the frozen specification claims about it.

Modelling conventions:
* JavaScript strings are Lean `String`s; the JS string operations used by the
  code (`trim`, `toLowerCase`, `split('.')`, `join('.')`, `endsWith`,
  `replace(/^www\./,'')`) are re-implemented structurally on `String.data`
  below so that every definition is executable and kernel-reducible.  The
  domains handled by this program are ASCII, so ASCII-only lowercasing is used
  (this also exactly matches SQLite's LIKE case folding).
* The SQLite database is an explicit `Store` record: lists of rows plus the
  next autoincrement ids.  A prepared `SELECT ... WHERE x = ?` becomes
  `List.find?`, `UPDATE` becomes `List.map` guarded by the WHERE predicate,
  and the `changes` count of an UPDATE is the number of rows matched by the
  WHERE clause (SQLite counts a row even when the new value equals the old).
* SQLite `LIKE` is modelled by `likeMatch`: `%` matches any sequence, `_`
  matches a single character, and plain characters compare ASCII
  case-insensitively (SQLite's default LIKE semantics).
* The platform URL parser (`new URL(url).hostname`) and the external
  Perplexity HTTP call are external collaborators: they enter as parameters
  (`hostOf : String → Option String`, `Upstream` oracles).
-/

namespace SourceTracker

/-! ## String helpers (models of the JS string operations used by server.js) -/

/-- Models ASCII lowercasing of a character.  JS `toLowerCase` on the ASCII
domains this program handles, and exactly SQLite's LIKE case folding. -/
def asciiLower (c : Char) : Char :=
  if 'A' ≤ c ∧ c ≤ 'Z' then Char.ofNat (c.toNat + 32) else c

/-- Models JS `String.prototype.toLowerCase` on ASCII strings. -/
def toLowerStr (s : String) : String :=
  ⟨s.data.map asciiLower⟩

/-- Models JS `String.prototype.trim`. -/
def trimChars (s : String) : String :=
  ⟨((s.data.dropWhile Char.isWhitespace).reverse.dropWhile Char.isWhitespace).reverse⟩

/-- Models the JS `replace(/^www\./, '')` used throughout server.js: strip one
leading `www.` if present. -/
def stripWww (s : String) : String :=
  if List.isPrefixOf "www.".data s.data then ⟨s.data.drop 4⟩ else s

/-- Models JS `String.prototype.endsWith` (case-sensitive suffix test). -/
def strEndsWith (s suf : String) : Bool :=
  List.isSuffixOf suf.data s.data

/-- Helper for `splitDots`: accumulates the current label (reversed). -/
def splitDotAux : List Char → List Char → List (List Char)
  | [], acc => [acc.reverse]
  | c :: rest, acc =>
    if c = '.' then acc.reverse :: splitDotAux rest []
    else splitDotAux rest (c :: acc)

/-- Models JS `domain.split('.')` (single-character separator `.`). -/
def splitDots (s : String) : List String :=
  (splitDotAux s.data []).map (fun l => ⟨l⟩)

/-- Models JS `Array.prototype.join('.')`. -/
def joinDots : List String → String
  | [] => ""
  | [x] => x
  | x :: xs => x ++ "." ++ joinDots xs

/-! ## getParentDomain (server.js lines 42-58) -/

/-- Compound TLDs where the last two parts are the TLD, not the domain
(server.js `COMPOUND_TLDS`). -/
def COMPOUND_TLDS : List String :=
  ["co.uk", "co.jp", "co.kr", "co.nz", "co.za", "co.in", "co.id",
   "com.au", "com.br", "com.cn", "com.mx", "com.sg", "com.tw", "com.hk",
   "org.uk", "net.au", "ac.uk", "gov.uk"]

/-- Translation of server.js `getParentDomain`. -/
def getParentDomain (domain : String) : String :=
  let parts := splitDots domain
  if parts.length ≤ 2 then domain
  else
    let lastTwo := joinDots (parts.drop (parts.length - 2))
    if COMPOUND_TLDS.contains lastTwo ∧ parts.length > 3 then
      joinDots (parts.drop (parts.length - 3))
    else
      joinDots (parts.drop (parts.length - 2))

/-! ## categorizeDomain (server.js lines 60-82) -/

/-- One iteration of the owned-domains loop in `categorizeDomain`:
`ownedClean = owned.trim().toLowerCase().replace(/^www\./,'')`, then
`domain === ownedClean || domain.endsWith('.' + ownedClean)`. -/
def ownedMatch (domain owned : String) : Bool :=
  let ownedClean := stripWww (toLowerStr (trimChars owned))
  domain == ownedClean || strEndsWith domain ("." ++ ownedClean)

/-- Translation of server.js `categorizeDomain`.  The two prepared
`SELECT category FROM domain_tags WHERE domain = ?` statements are abstracted
as the read-only snapshot `lookupTag` (instantiated with `tagLookup` below for
a concrete store). -/
def categorizeDomain (lookupTag : String → Option String)
    (domain : String) (ownedDomains : List String) : String :=
  if ownedDomains.any (fun owned => ownedMatch domain owned) then "owned"
  else
    match lookupTag domain with
    | some c => c
    | none =>
      let parentDomain := getParentDomain domain
      if parentDomain ≠ domain then
        match lookupTag parentDomain with
        | some c => c
        | none => "unknown"
      else "unknown"

/-! ## estimateCost (server.js lines 85-98) -/

/-- The static server.js `MODEL_PRICING` table: model ↦ (input, output) price
per million tokens.  JS number literals 1.00 / 3.00 / 15.00 / 5.00 / 2.00 /
8.00 are the exact rationals used here. -/
def MODEL_PRICING : List (String × ℚ × ℚ) :=
  [("sonar", (1, 1)), ("sonar-pro", (3, 15)),
   ("sonar-reasoning", (1, 5)), ("sonar-reasoning-pro", (2, 8))]

/-- Own-property part of the JS access `MODEL_PRICING[model]`: the table's
own keys as a finite-map lookup.  The full bracket access also consults the
prototype chain — see `modelPricingAccess`. -/
def lookupPricing (model : String) : Option (ℚ × ℚ) :=
  (MODEL_PRICING.find? (fun p => p.1 == model)).map (fun p => p.2)

/-- Models JS `+x.toFixed(6)`: round to 6 decimal places (round-half-up, which
agrees with toFixed on the positive values produced here). -/
def roundTo6 (q : ℚ) : ℚ :=
  ((round (q * 1000000) : ℤ) : ℚ) / 1000000

/-- Value of server.js `estimateCost` on every model string whose bracket
access yields an own table entry or `undefined` — that is, every string that
is not an `Object.prototype` property name.  `MODEL_PRICING[model] ||
MODEL_PRICING['sonar']` is the `orElse`; the final `getD` default is dead code
because the `"sonar"` entry exists.  `estimateCostJs` below is the full
translation including the prototype chain. -/
def estimateCost (model : String) (queryCount : ℚ) : ℚ :=
  let pricing := ((lookupPricing model).orElse (fun _ => lookupPricing "sonar")).getD (1, 1)
  let avgInputTokens : ℚ := 200
  let avgOutputTokens : ℚ := 500
  let costPerQuery := avgInputTokens / 1000000 * pricing.1 + avgOutputTokens / 1000000 * pricing.2
  roundTo6 (costPerQuery * queryCount)

/-- Property names every plain object literal inherits from
`Object.prototype` in Node: each holds a truthy value (a function, or for
`__proto__` an object), so the access `MODEL_PRICING[model]` is truthy for
these model strings even though the table has no such entry. -/
def OBJECT_PROTOTYPE_KEYS : List String :=
  ["constructor", "hasOwnProperty", "isPrototypeOf", "propertyIsEnumerable",
   "toLocaleString", "toString", "valueOf", "__proto__",
   "__defineGetter__", "__defineSetter__", "__lookupGetter__", "__lookupSetter__"]

/-- Value of the JS property access `MODEL_PRICING[model]`: one of the
table's own entries, a truthy value inherited from `Object.prototype`, or
`undefined`. -/
inductive PricingProp where
  | own (p : ℚ × ℚ)
  | proto
  | undef
deriving DecidableEq

/-- JS bracket access `MODEL_PRICING[model]` including the prototype chain:
own entries first, then the inherited `Object.prototype` properties, then
`undefined`. -/
def modelPricingAccess (model : String) : PricingProp :=
  match lookupPricing model with
  | some p => PricingProp.own p
  | none =>
    if OBJECT_PROTOTYPE_KEYS.contains model then PricingProp.proto
    else PricingProp.undef

/-- Full translation of server.js `estimateCost`, with the JS number NaN
modelled as `none`.  `MODEL_PRICING[model] || MODEL_PRICING['sonar']`: an own
entry or a truthy inherited `Object.prototype` value short-circuits the `||`,
and only `undefined` falls back to the `'sonar'` entry.  When the selected
value is an inherited function or object, `pricing.input` and
`pricing.output` are `undefined`, the token arithmetic yields NaN,
`.toFixed(6)` renders "NaN", and the unary `+` returns NaN. -/
def estimateCostJs (model : String) (queryCount : ℚ) : Option ℚ :=
  match modelPricingAccess model with
  | PricingProp.own p =>
    some (roundTo6 ((200 / 1000000 * p.1 + 500 / 1000000 * p.2) * queryCount))
  | PricingProp.proto => none
  | PricingProp.undef =>
    match lookupPricing "sonar" with
    | some p => some (roundTo6 ((200 / 1000000 * p.1 + 500 / 1000000 * p.2) * queryCount))
    | none => none

/-! ## SQLite LIKE (used by the retroactive update in POST /api/domain-tags) -/

/-- Comparison of one plain pattern character against one text character under
SQLite LIKE: ASCII case-insensitive. -/
def likeChar (p c : Char) : Bool :=
  asciiLower p == asciiLower c

/-- SQLite LIKE matching over character lists: `%` matches any (possibly
empty) sequence, `_` matches exactly one character, anything else matches one
character ASCII case-insensitively. -/
def likeMatchAux : List Char → List Char → Bool
  | [], t => t.isEmpty
  | p :: ps, t =>
    if p = '%' then t.tails.any (fun s => likeMatchAux ps s)
    else
      match t with
      | [] => false
      | c :: cs => (p = '_' || likeChar p c) && likeMatchAux ps cs

/-- SQLite `text LIKE pattern` (default, case-insensitive for ASCII). -/
def likeMatch (pat text : String) : Bool :=
  likeMatchAux pat.data text.data

/-- True when a string contains no LIKE metacharacter (`%` or `_`). -/
def noWild (s : String) : Bool :=
  s.data.all (fun c => !(c == '%') && !(c == '_'))

/-- ASCII case-insensitive suffix test: `t` ends with `suf` up to ASCII case.
This is what `t LIKE '%suf'` means when `suf` has no LIKE metacharacters. -/
def endsWithCI (t suf : String) : Bool :=
  List.isSuffixOf (suf.data.map asciiLower) (t.data.map asciiLower)

/-! ## The persistent store (db.js schema) -/

/-- Provenance of a domain tag.  The program only ever writes the strings
`'system'` (seed data, schema default) and `'user'` (POST /api/domain-tags),
so the reachable values form this two-element type. -/
inductive Source where
  | system
  | user
deriving DecidableEq

/-- Row of the `domain_tags` table (`domain` is UNIQUE). -/
structure DomainTag where
  id : Nat
  domain : String
  category : String
  src : Source
deriving DecidableEq

/-- Row of the `clients` table; `owned_domains` is stored as JSON text and is
modelled directly as the parsed list. -/
structure Client where
  id : Nat
  ownedDomains : List String
deriving DecidableEq

/-- Row of the `queries` table. -/
structure Query where
  id : Nat
  clientId : Nat
  queryText : String
deriving DecidableEq

/-- Row of the `runs` table (fields used by the claims). -/
structure Run where
  id : Nat
  queryId : Nat
  rawResponse : String
  responseText : String
  model : String
  costEstimate : ℚ
  citationCount : Nat
  ownedCitationCount : Nat
deriving DecidableEq

/-- Row of the `citations` table. -/
structure Citation where
  id : Nat
  runId : Nat
  url : String
  domain : String
  position : Nat
  category : String
deriving DecidableEq

/-- The SQLite database state: the five tables plus the next autoincrement
ids (SQLite AUTOINCREMENT starts at 1). -/
structure Store where
  clients : List Client
  queries : List Query
  runs : List Run
  citations : List Citation
  tags : List DomainTag
  nextRunId : Nat
  nextCitationId : Nat
  nextTagId : Nat
deriving DecidableEq

/-- A fresh database. -/
def emptyStore : Store :=
  ⟨[], [], [], [], [], 1, 1, 1⟩

/-- Models `SELECT category FROM domain_tags WHERE domain = ?` (the `domain`
column is UNIQUE, `=` is case-sensitive). -/
def tagLookup (st : Store) (d : String) : Option String :=
  (st.tags.find? (fun t => t.domain == d)).map (fun t => t.category)

/-! ## POST /api/domain-tags (server.js lines 469-496) -/

/-- Models the upsert
`INSERT INTO domain_tags (domain, category, source) VALUES (?, ?, 'user')
 ON CONFLICT(domain) DO UPDATE SET category = ?, source = 'user'`.
The `domain` column is UNIQUE, so on conflict exactly the one row with that
domain is updated in place (id preserved); otherwise a fresh row is
inserted. -/
def upsertTag (st : Store) (cleanDomain category : String) : Store :=
  if st.tags.any (fun t => t.domain == cleanDomain) then
    { st with tags := st.tags.map (fun t =>
        if t.domain == cleanDomain then { t with category := category, src := Source.user } else t) }
  else
    { st with
      tags := st.tags ++ [⟨st.nextTagId, cleanDomain, category, Source.user⟩],
      nextTagId := st.nextTagId + 1 }

/-- WHERE clause of the first retroactive UPDATE:
`domain = ? AND category = 'unknown'` (SQLite `=` is case-sensitive). -/
def exactHit (cleanDomain : String) (cit : Citation) : Bool :=
  cit.domain == cleanDomain && cit.category == "unknown"

/-- WHERE clause of the second retroactive UPDATE:
`domain LIKE ? AND category = 'unknown'` with the pattern `'%.' + domain`. -/
def likeHit (cleanDomain : String) (cit : Citation) : Bool :=
  likeMatch ("%." ++ cleanDomain) cit.domain && cit.category == "unknown"

/-- SET clause of both retroactive UPDATEs: `SET category = ?` on the rows the
WHERE clause hits; every other row and field is untouched. -/
def setCat (category : String) (hit : Citation → Bool) (cit : Citation) : Citation :=
  if hit cit then { cit with category := category } else cit

/-- Models `UPDATE citations SET category = ? WHERE domain = ? AND category =
'unknown'`; returns the new rows and the `changes` count. -/
def retroUpdateExact (cits : List Citation) (cleanDomain category : String) :
    List Citation × Nat :=
  (cits.map (setCat category (exactHit cleanDomain)),
   (cits.filter (exactHit cleanDomain)).length)

/-- Models `UPDATE citations SET category = ? WHERE domain LIKE ? AND category
= 'unknown'` run with the pattern `'%.' + cleanDomain`; returns the new rows
and the `changes` count. -/
def retroUpdateLike (cits : List Citation) (cleanDomain category : String) :
    List Citation × Nat :=
  (cits.map (setCat category (likeHit cleanDomain)),
   (cits.filter (likeHit cleanDomain)).length)

/-- Translation of the POST /api/domain-tags handler body (server.js 469-496):
validation, `cleanDomain` normalization, tag upsert, then the two retroactive
UPDATEs.  Returns the new store and `some retroactiveUpdates` (the reported
`updated.changes + parentUpdated.changes`), or `none` for the 400 validation
error (no side effect). -/
def postDomainTag (st : Store) (domain category : String) : Store × Option Nat :=
  if trimChars domain == "" || trimChars category == "" then (st, none)
  else
    let cleanDomain := stripWww (toLowerStr (trimChars domain))
    let st1 := upsertTag st cleanDomain category
    let r1 := retroUpdateExact st1.citations cleanDomain category
    let r2 := retroUpdateLike r1.1 cleanDomain category
    ({ st1 with citations := r2.1 }, some (r1.2 + r2.2))

/-! ## DELETE /api/domain-tags/:id (server.js lines 498-505) -/

/-- Outcome of the delete handler: 404, 403, or success. -/
inductive DeleteResult where
  | notFound
  | forbidden
  | success
deriving DecidableEq

/-- Translation of the DELETE /api/domain-tags/:id handler: select by id
(404 if absent), reject system tags (403), else delete the row. -/
def deleteDomainTag (st : Store) (tagId : Nat) : DeleteResult × Store :=
  match st.tags.find? (fun t => t.id == tagId) with
  | none => (DeleteResult.notFound, st)
  | some t =>
    if t.src = Source.system then (DeleteResult.forbidden, st)
    else (DeleteResult.success, { st with tags := st.tags.filter (fun u => !(u.id == tagId)) })

/-! ## Run recording (server.js lines 252-270 and 344-356) -/

/-- One categorized citation as built in memory by the analyze handlers
before persistence. -/
structure CitInput where
  url : String
  domain : String
  position : Nat
  category : String
deriving DecidableEq

/-- Outcome of the citation-insert transaction.  Each `INSERT INTO citations`
can throw (e.g. a NOT NULL constraint violation when a malformed upstream
citations array yields a null url); better-sqlite3 then rolls the transaction
back and the exception propagates to the route's catch block.  `rollback`
models any such failure; `commit` the normal path. -/
inductive TxnOutcome where
  | commit
  | rollback
deriving DecidableEq

/-- Models the single `INSERT INTO runs ... VALUES (?,?,?,?,?,?,?)` statement
(auto-committed on its own); returns the new store and `lastInsertRowid`. -/
def insertRunRow (st : Store) (queryId : Nat) (raw text model : String)
    (cost : ℚ) (citationCount ownedCount : Nat) : Store × Nat :=
  ({ st with
      runs := st.runs ++ [⟨st.nextRunId, queryId, raw, text, model, cost, citationCount, ownedCount⟩],
      nextRunId := st.nextRunId + 1 },
   st.nextRunId)

/-- Models the loop of `INSERT INTO citations (run_id, url, domain, position,
category)` statements inside the committed transaction. -/
def insertCitationRows (st : Store) (runId : Nat) (cits : List CitInput) : Store :=
  cits.foldl (fun s c =>
    { s with
      citations := s.citations ++ [⟨s.nextCitationId, runId, c.url, c.domain, c.position, c.category⟩],
      nextCitationId := s.nextCitationId + 1 }) st

/-- The citation rows the transaction would create, starting from a given
autoincrement id. -/
def citRowsFrom (runId : Nat) : Nat → List CitInput → List Citation
  | _, [] => []
  | n, c :: cs => ⟨n, runId, c.url, c.domain, c.position, c.category⟩ :: citRowsFrom runId (n + 1) cs

/-- Translation of the persistence step of POST /api/analyze when `queryId` is
given (server.js 252-270; the batch handler 344-356 is identical): the run row
is inserted and committed by one standalone statement, then the citation rows
are inserted inside one transaction, which either commits wholly or rolls back
(see `TxnOutcome`).  Returns the resulting committed store and the run id. -/
def recordRun (st : Store) (queryId : Nat) (raw text model : String) (cost : ℚ)
    (cits : List CitInput) (txn : TxnOutcome) : Store × Nat :=
  let ownedCount := (cits.filter (fun c => c.category == "owned")).length
  let r := insertRunRow st queryId raw text model cost cits.length ownedCount
  match txn with
  | TxnOutcome.commit => (insertCitationRows r.1 r.2 cits, r.2)
  | TxnOutcome.rollback => (r.1, r.2)

/-! ## POST /api/analyze/batch (server.js lines 292-377) -/

/-- Translation of server.js `extractDomain`.  `hostOf` models the platform
URL parser: `some hostname` when `new URL(url)` succeeds, `none` when the
constructor throws (the catch branch returns the input unchanged). -/
def extractDomain (hostOf : String → Option String) (url : String) : String :=
  match hostOf url with
  | some host => stripWww host
  | none => url

/-- Models `citations.map((url, idx) => ...)`: derive domain, 1-based
position, and category for each citation URL. -/
def categorizeCitations (hostOf : String → Option String)
    (lookupTag : String → Option String) (ownedDomains : List String) :
    List String → Nat → List CitInput
  | [], _ => []
  | url :: rest, i =>
    let domain := extractDomain hostOf url
    ⟨url, domain, i + 1, categorizeDomain lookupTag domain ownedDomains⟩
      :: categorizeCitations hostOf lookupTag ownedDomains rest (i + 1)

/-- Oracle for one external Perplexity call: a parsed OK response (raw JSON
text, answer text, citations array), a non-2xx HTTP response, or a thrown
error (network failure, JSON parse failure, ...). -/
inductive Upstream where
  | ok (raw : String) (text : String) (citations : List String)
  | httpError (status : Nat) (body : String)
  | exn (message : String)

/-- One element of the batch handler's `results` array, reduced to the fields
the claims are about: an error entry or a success entry. -/
inductive BatchEntry where
  | err (queryId : Nat) (message : String)
  | done (queryId : Nat) (runId : Nat) (citationCount ownedCitationCount : Nat)
deriving DecidableEq

/-- The `queryId` field every results entry carries. -/
def entryQueryId : BatchEntry → Nat
  | BatchEntry.err q _ => q
  | BatchEntry.done q _ _ _ => q

/-- Models the batch handler's
`SELECT c.owned_domains FROM queries q JOIN clients c ON c.id = q.client_id
 WHERE q.id = ?` join followed by `JSON.parse` (`[]` when the row is
missing). -/
def clientOwnedDomains (st : Store) (q : Query) : List String :=
  match st.clients.find? (fun c => c.id == q.clientId) with
  | some cl => cl.ownedDomains
  | none => []

/-- One iteration of the batch loop (server.js 302-374): look the query up
(error entry on miss), call the external engine (error entry on HTTP error or
thrown exception), else categorize the citations and persist run + citations,
pushing a success entry. -/
def batchItem (hostOf : String → Option String) (st : Store) (qid : Nat)
    (model : String) (up : Upstream) : Store × BatchEntry :=
  match st.queries.find? (fun q => q.id == qid) with
  | none => (st, BatchEntry.err qid "Query not found")
  | some q =>
    match up with
    | Upstream.httpError status _ => (st, BatchEntry.err qid ("API error: " ++ toString status))
    | Upstream.exn m => (st, BatchEntry.err qid m)
    | Upstream.ok raw text cits =>
      let categorized := categorizeCitations hostOf (tagLookup st) (clientOwnedDomains st q) cits 0
      let ownedCount := (categorized.filter (fun c => c.category == "owned")).length
      let r := insertRunRow st qid raw text model (estimateCost model 1) cits.length ownedCount
      (insertCitationRows r.1 r.2 categorized, BatchEntry.done qid r.2 cits.length ownedCount)

/-- The sequential batch loop; `i` is the loop index, `ups i` the outcome of
the external call made in iteration `i` (iterations that skip the call ignore
their slot).  The fixed 500 ms inter-item delay has no effect on store or
results and is not modelled. -/
def analyzeBatchAux (hostOf : String → Option String) (model : String)
    (ups : Nat → Upstream) : List Nat → Nat → Store → Store × List BatchEntry
  | [], _, st => (st, [])
  | qid :: rest, i, st =>
    let r := batchItem hostOf st qid model (ups i)
    let out := analyzeBatchAux hostOf model ups rest (i + 1) r.1
    (out.1, r.2 :: out.2)

/-- Translation of the POST /api/analyze/batch handler body for a non-empty
validated `queryIds` array. -/
def analyzeBatch (hostOf : String → Option String) (st : Store)
    (qids : List Nat) (model : String) (ups : Nat → Upstream) :
    Store × List BatchEntry :=
  analyzeBatchAux hostOf model ups qids 0 st

/-! ## Store well-formedness -/

/-- Invariants of the `domain_tags` table maintained by the schema and the
handlers: ids are pairwise distinct (PRIMARY KEY), domains pairwise distinct
(UNIQUE), and every id is below the next autoincrement value. -/
def TagsWF (st : Store) : Prop :=
  st.tags.Pairwise (fun a b => a.id ≠ b.id ∧ a.domain ≠ b.domain) ∧
  ∀ t ∈ st.tags, t.id < st.nextTagId


/-! ## Helper evaluation lemmas -/

/-- Evaluation of the pricing table at the default model. -/
theorem lookupPricing_sonar : lookupPricing "sonar" = some (1, 1) := by decide

/-! ## Claim C5 — getParentDomain -/

/-- C5: for every domain string made of dot-separated labels: with 2 or fewer
labels the domain is returned unchanged; with more than 3 labels whose last
two joined are a compound TLD the last 3 labels joined are returned; otherwise
the last 2 labels joined; and the three concrete examples from the spec. -/
theorem getParentDomain_spec (d : String) :
    ((splitDots d).length ≤ 2 → getParentDomain d = d) ∧
    ((splitDots d).length > 3 →
      COMPOUND_TLDS.contains (joinDots ((splitDots d).drop ((splitDots d).length - 2))) = true →
      getParentDomain d = joinDots ((splitDots d).drop ((splitDots d).length - 3))) ∧
    ((splitDots d).length > 2 →
      ¬(COMPOUND_TLDS.contains (joinDots ((splitDots d).drop ((splitDots d).length - 2))) = true ∧
        (splitDots d).length > 3) →
      getParentDomain d = joinDots ((splitDots d).drop ((splitDots d).length - 2))) ∧
    getParentDomain "docs.example.co.uk" = "example.co.uk" ∧
    getParentDomain "blog.example.com" = "example.com" ∧
    getParentDomain "example.com" = "example.com" := by
  refine ⟨?_, ?_, ?_, by decide, by decide, by decide⟩
  · intro h
    simp [getParentDomain, h]
  · intro h3 hc
    have h2 : ¬ (splitDots d).length ≤ 2 := by omega
    have hm : joinDots ((splitDots d).drop ((splitDots d).length - 2)) ∈ COMPOUND_TLDS := by
      simpa using hc
    simp [getParentDomain, h2, hm, h3]
  · intro h2 hn
    have h2' : ¬ (splitDots d).length ≤ 2 := by omega
    simp only [getParentDomain]
    rw [if_neg h2']
    rw [if_neg (by simpa using hn)]

/-- Witness for C5: the theorem applied at concrete domains for each of the
three conditional branches. -/
theorem getParentDomain_spec_witness :
    getParentDomain "a.b" = "a.b" ∧
    getParentDomain "docs.example.co.uk" =
      joinDots ((splitDots "docs.example.co.uk").drop ((splitDots "docs.example.co.uk").length - 3)) ∧
    getParentDomain "blog.example.com" =
      joinDots ((splitDots "blog.example.com").drop ((splitDots "blog.example.com").length - 2)) :=
  ⟨(getParentDomain_spec "a.b").1 (by decide),
   (getParentDomain_spec "docs.example.co.uk").2.1 (by decide) (by decide),
   (getParentDomain_spec "blog.example.com").2.2.1 (by decide) (by decide)⟩

/-! ## Claim C2 — categorizeDomain precedence -/

/-- C2: categorizeDomain follows the four-step precedence with first match
winning: owned (equal or `.`-suffix of a cleaned owned entry, regardless of
any stored tag), else exact tag, else parent tag when the parent differs and
is tagged, else "unknown". -/
theorem categorizeDomain_precedence (lookupTag : String → Option String)
    (d : String) (L : List String) :
    ((∃ o ∈ L, ownedMatch d o = true) → categorizeDomain lookupTag d L = "owned") ∧
    (∀ c, (∀ o ∈ L, ownedMatch d o = false) → lookupTag d = some c →
      categorizeDomain lookupTag d L = c) ∧
    (∀ c, (∀ o ∈ L, ownedMatch d o = false) → lookupTag d = none →
      getParentDomain d ≠ d → lookupTag (getParentDomain d) = some c →
      categorizeDomain lookupTag d L = c) ∧
    ((∀ o ∈ L, ownedMatch d o = false) → lookupTag d = none →
      (getParentDomain d = d ∨ lookupTag (getParentDomain d) = none) →
      categorizeDomain lookupTag d L = "unknown") := by
  refine ⟨?_, ?_, ?_, ?_⟩
  · intro h
    have ha : L.any (fun owned => ownedMatch d owned) = true := List.any_eq_true.mpr h
    simp [categorizeDomain, ha]
  · intro c h he
    have ha : L.any (fun owned => ownedMatch d owned) = false := by
      simp only [List.any_eq_false]
      intro o ho
      simp [h o ho]
    simp [categorizeDomain, ha, he]
  · intro c h he hp hpt
    have ha : L.any (fun owned => ownedMatch d owned) = false := by
      simp only [List.any_eq_false]
      intro o ho
      simp [h o ho]
    simp [categorizeDomain, ha, he, hp, hpt]
  · intro h he hor
    have ha : L.any (fun owned => ownedMatch d owned) = false := by
      simp only [List.any_eq_false]
      intro o ho
      simp [h o ho]
    rcases hor with hp | hpt
    · simp [categorizeDomain, ha, he, hp]
    · by_cases hp : getParentDomain d ≠ d
      · simp [categorizeDomain, ha, he, hp, hpt]
      · simp only [ne_eq, not_not] at hp
        simp [categorizeDomain, ha, he, hp]

/-- Witness for C2: the theorem applied with a concrete tag snapshot at inputs
exercising all four precedence steps, including a conflicting tag overridden
by ownership. -/
theorem categorizeDomain_precedence_witness :
    categorizeDomain (fun x => if x == "coindesk.com" then some "news" else none)
      "coindesk.com" ["  WWW.CoinDesk.COM "] = "owned" ∧
    categorizeDomain (fun x => if x == "coindesk.com" then some "news" else none)
      "coindesk.com" [] = "news" ∧
    categorizeDomain (fun x => if x == "coindesk.com" then some "news" else none)
      "blog.coindesk.com" [] = "news" ∧
    categorizeDomain (fun x => if x == "coindesk.com" then some "news" else none)
      "example.org" [] = "unknown" :=
  ⟨(categorizeDomain_precedence _ _ _).1 ⟨"  WWW.CoinDesk.COM ", by decide, by decide⟩,
   (categorizeDomain_precedence _ _ _).2.1 "news" (by decide) (by decide),
   (categorizeDomain_precedence _ _ _).2.2.1 "news" (by decide) (by decide) (by decide) (by decide),
   (categorizeDomain_precedence _ _ _).2.2.2 (by decide) (by decide) (Or.inl (by decide))⟩

/-! ## Claim C8 — estimateCost -/

/-- C8 (amended): for a model in the table, estimateCost returns queryCount
times the fixed-token cost of its entry rounded to 6 decimal places; a model
that is neither a table key nor an `Object.prototype` property name falls
back to the sonar pricing; a model naming an inherited `Object.prototype`
property bypasses the fallback and the function returns NaN; and
estimateCost "sonar" 1 = 0.0007. -/
theorem estimateCostJs_spec :
    (∀ model (n : ℚ) (p : ℚ × ℚ), lookupPricing model = some p →
      estimateCostJs model n =
        some (roundTo6 (n * (200 / 1000000 * p.1 + 500 / 1000000 * p.2)))) ∧
    (∀ model (n : ℚ), lookupPricing model = none →
      OBJECT_PROTOTYPE_KEYS.contains model = false →
      estimateCostJs model n = estimateCostJs "sonar" n) ∧
    (∀ model (n : ℚ), lookupPricing model = none →
      OBJECT_PROTOTYPE_KEYS.contains model = true →
      estimateCostJs model n = none) ∧
    estimateCostJs "sonar" 1 = some 0.0007 := by
  refine ⟨?_, ?_, ?_, ?_⟩
  · intro model n p h
    simp only [estimateCostJs, modelPricingAccess, h, Option.some.injEq]
    ring_nf
  · intro model n h hk
    have hk' : model ∉ OBJECT_PROTOTYPE_KEYS := by simpa using hk
    simp [estimateCostJs, modelPricingAccess, h, hk', lookupPricing_sonar]
  · intro model n h hk
    have hk' : model ∈ OBJECT_PROTOTYPE_KEYS := by simpa using hk
    simp [estimateCostJs, modelPricingAccess, h, hk']
  · simp only [estimateCostJs, modelPricingAccess, lookupPricing_sonar, Option.some.injEq]
    norm_num [roundTo6]

/-- Counterexample to C8 as stated: "toString" is not a key of the pricing
table — an unknown model — yet estimateCost("toString", 10) is NaN rather
than the sonar-priced estimate: the truthy inherited
`Object.prototype.toString` short-circuits the `|| MODEL_PRICING['sonar']`
fallback and the arithmetic on its undefined `.input`/`.output` yields NaN. -/
theorem estimateCostJs_cex :
    lookupPricing "toString" = none ∧
    estimateCostJs "toString" 10 = none ∧
    estimateCostJs "toString" 10 ≠ estimateCostJs "sonar" 10 := by
  refine ⟨by decide, by decide, ?_⟩
  have h1 : estimateCostJs "toString" 10 = none := by decide
  have h2 : (estimateCostJs "sonar" 10).isSome = true := by decide
  obtain ⟨q, hq⟩ := Option.isSome_iff_exists.mp h2
  rw [h1, hq]
  simp

/-- Witness for C8 (amended): the theorem applied at a table model, at an
ordinary unknown model, and at an `Object.prototype` property name. -/
theorem estimateCostJs_spec_witness :
    estimateCostJs "sonar-pro" 2 =
      some (roundTo6 (2 * (200 / 1000000 * 3 + 500 / 1000000 * 15))) ∧
    estimateCostJs "some-unknown-model" 10 = estimateCostJs "sonar" 10 ∧
    estimateCostJs "valueOf" 5 = none :=
  ⟨by
    have h := estimateCostJs_spec.1 "sonar-pro" 2 (3, 15) (by decide)
    simpa using h,
   estimateCostJs_spec.2.1 "some-unknown-model" 10 (by decide) (by decide),
   estimateCostJs_spec.2.2.1 "valueOf" 5 (by decide) (by decide)⟩

/-! ## Claim C6 — tag deletion fails closed -/

/-- C6: deleting a tag id fails with notFound when absent and with forbidden
when the tag is system-provenance, leaving the store unchanged in both cases;
a row is removed only for an existing user-provenance tag. -/
theorem deleteDomainTag_spec (st : Store) (tagId : Nat) :
    (st.tags.find? (fun t => t.id == tagId) = none →
      deleteDomainTag st tagId = (DeleteResult.notFound, st)) ∧
    (∀ t, st.tags.find? (fun t => t.id == tagId) = some t → t.src = Source.system →
      deleteDomainTag st tagId = (DeleteResult.forbidden, st)) ∧
    (∀ t, st.tags.find? (fun t => t.id == tagId) = some t → t.src = Source.user →
      deleteDomainTag st tagId =
        (DeleteResult.success, { st with tags := st.tags.filter (fun u => !(u.id == tagId)) })) ∧
    ((deleteDomainTag st tagId).2 ≠ st →
      ∃ t, st.tags.find? (fun t => t.id == tagId) = some t ∧ t.src = Source.user) := by
  refine ⟨?_, ?_, ?_, ?_⟩
  · intro h
    simp [deleteDomainTag, h]
  · intro t ht hs
    simp [deleteDomainTag, ht, hs]
  · intro t ht hs
    simp [deleteDomainTag, ht, hs]
  · intro hne
    match hfind : st.tags.find? (fun t => t.id == tagId) with
    | none => exact absurd (by simp [deleteDomainTag, hfind]) hne
    | some t =>
      cases hsrc : t.src with
      | system => exact absurd (by simp [deleteDomainTag, hfind, hsrc]) hne
      | user => exact ⟨t, hfind, hsrc⟩

/-- Witness for C6: the theorem applied to a concrete store holding one system
tag and one user tag, at a missing id, the system id, and the user id. -/
theorem deleteDomainTag_spec_witness :
    deleteDomainTag ⟨[], [], [], [],
        [⟨1, "coindesk.com", "news", Source.system⟩, ⟨2, "myblog.com", "blog", Source.user⟩],
        1, 1, 3⟩ 99 =
      (DeleteResult.notFound, ⟨[], [], [], [],
        [⟨1, "coindesk.com", "news", Source.system⟩, ⟨2, "myblog.com", "blog", Source.user⟩],
        1, 1, 3⟩) ∧
    deleteDomainTag ⟨[], [], [], [],
        [⟨1, "coindesk.com", "news", Source.system⟩, ⟨2, "myblog.com", "blog", Source.user⟩],
        1, 1, 3⟩ 1 =
      (DeleteResult.forbidden, ⟨[], [], [], [],
        [⟨1, "coindesk.com", "news", Source.system⟩, ⟨2, "myblog.com", "blog", Source.user⟩],
        1, 1, 3⟩) ∧
    (deleteDomainTag ⟨[], [], [], [],
        [⟨1, "coindesk.com", "news", Source.system⟩, ⟨2, "myblog.com", "blog", Source.user⟩],
        1, 1, 3⟩ 2).1 = DeleteResult.success :=
  ⟨(deleteDomainTag_spec ⟨[], [], [], [],
        [⟨1, "coindesk.com", "news", Source.system⟩, ⟨2, "myblog.com", "blog", Source.user⟩],
        1, 1, 3⟩ 99).1 (by decide),
   (deleteDomainTag_spec ⟨[], [], [], [],
        [⟨1, "coindesk.com", "news", Source.system⟩, ⟨2, "myblog.com", "blog", Source.user⟩],
        1, 1, 3⟩ 1).2.1 ⟨1, "coindesk.com", "news", Source.system⟩ (by decide) rfl,
   by
    have h := (deleteDomainTag_spec ⟨[], [], [], [],
        [⟨1, "coindesk.com", "news", Source.system⟩, ⟨2, "myblog.com", "blog", Source.user⟩],
        1, 1, 3⟩ 2).2.2.1 ⟨2, "myblog.com", "blog", Source.user⟩ (by decide) rfl
    rw [h]⟩

/-! ## SQLite LIKE characterization lemmas -/

/-- Matching a pattern that starts with `%` means matching the rest of the
pattern against some suffix of the text. -/
theorem likeMatchAux_percent (ps : List Char) (t : List Char) :
    likeMatchAux ('%' :: ps) t = true ↔ ∃ s, s <:+ t ∧ likeMatchAux ps s = true := by
  simp [likeMatchAux, List.any_eq_true, List.mem_tails]

/-- A pattern without LIKE metacharacters matches exactly the texts equal to
it up to ASCII case. -/
theorem likeMatchAux_literal (ps : List Char) (hps : ∀ ch ∈ ps, ch ≠ '%' ∧ ch ≠ '_')
    (s : List Char) :
    likeMatchAux ps s = true ↔ s.map asciiLower = ps.map asciiLower := by
  induction ps generalizing s with
  | nil => cases s <;> simp [likeMatchAux]
  | cons p ps ih =>
    obtain ⟨hp1, hp2⟩ := hps p (by simp)
    cases s with
    | nil => simp [likeMatchAux, hp1]
    | cons c cs =>
      have ih' := ih (fun ch hch => hps ch (by simp [hch])) cs
      simp only [likeMatchAux, if_neg hp1, Bool.and_eq_true, Bool.or_eq_true,
        decide_eq_true_eq, likeChar, beq_iff_eq, List.map_cons, List.cons.injEq, ih']
      constructor
      · rintro ⟨hc, hrest⟩
        rcases hc with hc | hc
        · exact absurd hc hp2
        · exact ⟨hc.symm, hrest⟩
      · rintro ⟨hc, hrest⟩
        exact ⟨Or.inr hc.symm, hrest⟩

/-- A list has a suffix mapping onto `m` exactly when `m` is a suffix of its
image. -/
theorem map_suffix_exists (f : Char → Char) (m t : List Char) :
    (∃ s, s <:+ t ∧ s.map f = m) ↔ m <:+ t.map f := by
  constructor
  · rintro ⟨s, hs, rfl⟩
    exact hs.map f
  · rintro ⟨pre, hpre⟩
    refine ⟨t.drop pre.length, List.drop_suffix _ _, ?_⟩
    rw [List.map_drop, ← hpre, List.drop_left]

/-- Characters of `'.' :: cd` are plain when `cd` has no metacharacter. -/
theorem noWild_chars (cd : String) (h : noWild cd = true) :
    ∀ ch ∈ ('.' :: cd.data), ch ≠ '%' ∧ ch ≠ '_' := by
  intro ch hch
  rcases hch with _ | hch
  · constructor <;> decide
  · have := (List.all_eq_true.mp h) ch (by assumption)
    simp at this
    exact this

/-- For a metacharacter-free domain `cd`, `t LIKE '%.cd'` holds exactly when
`t` ends with `.cd` up to ASCII case. -/
theorem likeMatch_percentDot (cd t : String) (h : noWild cd = true) :
    likeMatch ("%." ++ cd) t = true ↔ endsWithCI t ("." ++ cd) = true := by
  have hdata : ("%." ++ cd).data = '%' :: '.' :: cd.data := by
    rw [String.data_append]
    rfl
  have hdata2 : ("." ++ cd).data = '.' :: cd.data := by
    rw [String.data_append]
    rfl
  rw [likeMatch, hdata, likeMatchAux_percent]
  rw [endsWithCI, hdata2, List.isSuffixOf_iff_suffix]
  constructor
  · rintro ⟨s, hs, hm⟩
    have := (likeMatchAux_literal _ (noWild_chars cd h) s).mp hm
    exact (map_suffix_exists asciiLower _ _).mp ⟨s, hs, this⟩
  · intro hsuf
    obtain ⟨s, hs, hm⟩ := (map_suffix_exists asciiLower _ _).mpr hsuf
    exact ⟨s, hs, (likeMatchAux_literal _ (noWild_chars cd h) s).mpr hm⟩

/-- Boolean form of `likeMatch_percentDot`. -/
theorem likeMatch_eq_endsWithCI (cd : String) (h : noWild cd = true) (dom : String) :
    likeMatch ("%." ++ cd) dom = endsWithCI dom ("." ++ cd) :=
  Bool.coe_iff_coe.mp (likeMatch_percentDot cd dom h)

/-- The tag upsert never touches the citations table. -/
theorem upsertTag_citations (st : Store) (cd c : String) :
    (upsertTag st cd c).citations = st.citations := by
  unfold upsertTag
  split <;> rfl

-- C10
/-! ## Claim C10 — the LIKE-based subdomain update -/

/-- C10: for every tag domain without `%` or `_`, the second UPDATE rewrites
exactly the citations in category "unknown" whose domain ends, ASCII
case-insensitively, with `'.' + domain`; and for a domain containing `%` the
pattern acts as a wildcard, shown by a concrete non-subdomain citation that
the UPDATE recategorizes. -/
theorem retroUpdateLike_spec :
    (∀ (cits : List Citation) (cd c : String), noWild cd = true →
      retroUpdateLike cits cd c =
        (cits.map (fun cit =>
           if endsWithCI cit.domain ("." ++ cd) && cit.category == "unknown"
           then { cit with category := c } else cit),
         (cits.filter (fun cit =>
           endsWithCI cit.domain ("." ++ cd) && cit.category == "unknown")).length)) ∧
    (likeMatch ("%." ++ "e%e.com") "sub.evilsite.com" = true ∧
     strEndsWith "sub.evilsite.com" ("." ++ "e%e.com") = false ∧
     (retroUpdateLike [⟨1, 1, "https://sub.evilsite.com/p", "sub.evilsite.com", 1, "unknown"⟩]
        "e%e.com" "news").1.map Citation.category = ["news"]) := by
  constructor
  · intro cits cd c h
    have hhit : likeHit cd = fun cit =>
        endsWithCI cit.domain ("." ++ cd) && cit.category == "unknown" := by
      funext cit
      rw [likeHit, likeMatch_eq_endsWithCI cd h]
    simp only [retroUpdateLike, hhit, Prod.mk.injEq]
    refine ⟨?_, trivial⟩
    apply List.map_eq_map_iff.mpr
    intro cit _
    rw [setCat]
  · refine ⟨by decide, by decide, by decide⟩

/-- Witness for C10: the characterization applied to a concrete store and a
wildcard-free tag domain. -/
theorem retroUpdateLike_spec_witness :
    retroUpdateLike [⟨1, 1, "https://blog.example.com/a", "blog.example.com", 1, "unknown"⟩]
        "example.com" "news" =
      (([⟨1, 1, "https://blog.example.com/a", "blog.example.com", 1, "unknown"⟩] : List Citation).map
        (fun cit =>
         if endsWithCI cit.domain ("." ++ "example.com") && cit.category == "unknown"
         then { cit with category := "news" } else cit),
       (([⟨1, 1, "https://blog.example.com/a", "blog.example.com", 1, "unknown"⟩] : List Citation).filter
        (fun cit =>
         endsWithCI cit.domain ("." ++ "example.com") && cit.category == "unknown")).length) :=
  retroUpdateLike_spec.1
    [⟨1, 1, "https://blog.example.com/a", "blog.example.com", 1, "unknown"⟩]
    "example.com" "news" (by decide)

-- C3 amended
/-! ## Claim C3 — frame property of the retroactive update -/

/-- C3 (amended): for a tag domain whose normalized form contains no LIKE
metacharacter, the upsert rewrites exactly the previously stored citations in
category "unknown" whose domain equals the normalized tag domain exactly
(case-sensitively) or ends with `'.' + domain` ASCII case-insensitively, all
to the new category; every other row, and every field other than category, is
unchanged. -/
theorem retroRecategorize_frame (st : Store) (d c : String)
    (hd : trimChars d ≠ "") (hc : trimChars c ≠ "")
    (hw : noWild (stripWww (toLowerStr (trimChars d))) = true) :
    (postDomainTag st d c).1.citations =
      st.citations.map (fun cit =>
        if (cit.domain == stripWww (toLowerStr (trimChars d)) ||
            endsWithCI cit.domain ("." ++ stripWww (toLowerStr (trimChars d)))) &&
           cit.category == "unknown"
        then { cit with category := c } else cit) := by
  unfold postDomainTag
  rw [if_neg (by simp [hd, hc])]
  simp only [retroUpdateExact, retroUpdateLike, upsertTag_citations, List.map_map]
  apply List.map_eq_map_iff.mpr
  intro x _
  simp only [Function.comp_apply]
  set cd := stripWww (toLowerStr (trimChars d)) with hcd
  by_cases hu : (x.category == "unknown") = true
  · by_cases hdx : (x.domain == cd) = true
    · have hxd : x.domain = cd := by simpa using hdx
      have hlx : likeMatch ("%." ++ cd) cd = false := by
        rw [likeMatch_eq_endsWithCI cd hw]
        rw [endsWithCI]
        by_contra hcon
        simp only [Bool.not_eq_false] at hcon
        have hsuf := List.isSuffixOf_iff_suffix.mp hcon
        have := hsuf.length_le
        simp [String.data_append] at this
      by_cases hcu : (c == "unknown") = true
      · have hceq : c = "unknown" := by simpa using hcu
        cases x
        simp_all [setCat, exactHit, likeHit]
      · cases x
        simp_all [setCat, exactHit, likeHit]
    · cases x
      simp_all [setCat, exactHit, likeHit, likeMatch_eq_endsWithCI cd hw]
  · cases x
    simp_all [setCat, exactHit, likeHit]

-- C3 counterexample + witness
/-- Counterexample to C3 as stated: with the tag domain "e%e.com" (whose `%`
is a LIKE wildcard), a stored unknown citation for "sub.evilsite.com" — a
domain that neither equals the tag domain nor is a subdomain of it — is
recategorized to "news" by the upsert, so "every other Citation row is
unchanged" fails. -/
theorem retroRecategorize_frame_cex :
    ((postDomainTag
        ⟨[], [], [], [⟨1, 1, "https://sub.evilsite.com/p", "sub.evilsite.com", 1, "unknown"⟩],
          [], 1, 2, 1⟩
        "e%e.com" "news").1.citations.map Citation.category = ["news"]) ∧
    "sub.evilsite.com" ≠ "e%e.com" ∧
    strEndsWith "sub.evilsite.com" ("." ++ "e%e.com") = false := by
  refine ⟨by decide, by decide, by decide⟩

/-- Witness for C3 (amended): the frame theorem applied to a concrete store
and the tag ("Example.com", "news"). -/
theorem retroRecategorize_frame_witness :
    (postDomainTag
        ⟨[], [], [], [⟨1, 1, "https://blog.example.com/a", "blog.example.com", 1, "unknown"⟩],
          [], 1, 2, 1⟩
        "Example.com" "news").1.citations =
      ([⟨1, 1, "https://blog.example.com/a", "blog.example.com", 1, "unknown"⟩] : List Citation).map
        (fun cit =>
          if (cit.domain == stripWww (toLowerStr (trimChars "Example.com")) ||
              endsWithCI cit.domain ("." ++ stripWww (toLowerStr (trimChars "Example.com")))) &&
             cit.category == "unknown"
          then { cit with category := "news" } else cit) :=
  retroRecategorize_frame
    ⟨[], [], [], [⟨1, 1, "https://blog.example.com/a", "blog.example.com", 1, "unknown"⟩],
      [], 1, 2, 1⟩
    "Example.com" "news" (by decide) (by decide) (by decide)

-- C4 helpers
/-! ## Claim C4 — idempotence of the retroactive update -/

/-- Applying either retroactive UPDATE a second time leaves every row of the
first pass's output unchanged. -/
theorem setCat_stable (cd c : String) (x : Citation) :
    setCat c (exactHit cd) (setCat c (likeHit cd) (setCat c (exactHit cd) x)) =
      setCat c (likeHit cd) (setCat c (exactHit cd) x) ∧
    setCat c (likeHit cd) (setCat c (likeHit cd) (setCat c (exactHit cd) x)) =
      setCat c (likeHit cd) (setCat c (exactHit cd) x) := by
  by_cases hu : (x.category == "unknown") = true
  · by_cases hcu : (c == "unknown") = true
    · have hceq : c = "unknown" := by simpa using hcu
      subst hceq
      by_cases hdx : (x.domain == cd) = true <;>
        by_cases hlx : (likeMatch ("%." ++ cd) x.domain) = true <;>
          (cases x; simp_all [setCat, exactHit, likeHit])
    · by_cases hdx : (x.domain == cd) = true <;>
        by_cases hlx : (likeMatch ("%." ++ cd) x.domain) = true <;>
          (cases x; simp_all [setCat, exactHit, likeHit])
  · cases x
    simp_all [setCat, exactHit, likeHit]

/-- When the new category is not the literal string "unknown", no row of the
first pass's output still matches either WHERE clause. -/
theorem retroCondFalse (cd c : String) (hcu : c ≠ "unknown") (x : Citation) :
    exactHit cd (setCat c (likeHit cd) (setCat c (exactHit cd) x)) = false ∧
    likeHit cd (setCat c (likeHit cd) (setCat c (exactHit cd) x)) = false := by
  by_cases hu : (x.category == "unknown") = true
  · by_cases hdx : (x.domain == cd) = true <;>
      by_cases hlx : (likeMatch ("%." ++ cd) x.domain) = true <;>
        (cases x; simp_all [setCat, exactHit, likeHit])
  · cases x
    simp_all [setCat, exactHit, likeHit]

/-- The upsert ignores the citations field of the store. -/
theorem upsertTag_set_citations (st : Store) (X : List Citation) (cd c : String) :
    upsertTag { st with citations := X } cd c = { upsertTag st cd c with citations := X } := by
  by_cases h : st.tags.any (fun t => t.domain == cd) = true <;>
    simp [upsertTag, h]

/-- Upserting the same (domain, category) twice equals upserting it once. -/
theorem upsertTag_idem (st : Store) (cd c : String) :
    upsertTag (upsertTag st cd c) cd c = upsertTag st cd c := by
  by_cases h : st.tags.any (fun t => t.domain == cd) = true
  · have h1 : upsertTag st cd c = { st with tags := st.tags.map (fun t =>
        if t.domain == cd then { t with category := c, src := Source.user } else t) } := by
      unfold upsertTag
      rw [if_pos h]
    have hfid : ∀ t : DomainTag,
        ((fun t => if t.domain == cd then { t with category := c, src := Source.user } else t) ∘
         (fun t => if t.domain == cd then { t with category := c, src := Source.user } else t)) t =
        (fun t : DomainTag => if t.domain == cd then { t with category := c, src := Source.user } else t) t := by
      intro t
      by_cases ht : (t.domain == cd) = true <;> (cases t; simp_all)
    have h2 : (st.tags.map (fun t =>
        if t.domain == cd then { t with category := c, src := Source.user } else t)).any
        (fun t => t.domain == cd) = true := by
      rw [List.any_map]
      rw [List.any_eq_true] at h ⊢
      obtain ⟨t, ht, htd⟩ := h
      refine ⟨t, ht, ?_⟩
      simp only [Function.comp_apply]
      by_cases hb : (t.domain == cd) = true <;> (cases t; simp_all)
    rw [h1]
    unfold upsertTag
    rw [if_pos h2]
    rw [List.map_map]
    rw [List.map_congr_left (fun t _ => hfid t)]
  · have h1 : upsertTag st cd c = { st with
        tags := st.tags ++ [⟨st.nextTagId, cd, c, Source.user⟩],
        nextTagId := st.nextTagId + 1 } := by
      unfold upsertTag
      rw [if_neg h]
    have h2 : (st.tags ++ [(⟨st.nextTagId, cd, c, Source.user⟩ : DomainTag)]).any
        (fun t => t.domain == cd) = true := by
      rw [List.any_append]
      simp
    have h3 : (st.tags ++ [(⟨st.nextTagId, cd, c, Source.user⟩ : DomainTag)]).map
        (fun t => if t.domain == cd then { t with category := c, src := Source.user } else t) =
        st.tags ++ [⟨st.nextTagId, cd, c, Source.user⟩] := by
      rw [List.map_append]
      have hall := List.any_eq_false.mp (Bool.not_eq_true _ ▸ h)
      congr 1
      · conv_rhs => rw [← List.map_id st.tags]
        apply List.map_congr_left
        intro t ht
        have : ¬ (t.domain == cd) = true := by
          intro hb
          exact absurd hb (by simpa using hall t ht)
        simp [this]
      · simp
    rw [h1]
    unfold upsertTag
    rw [if_pos h2]
    rw [h3]

/-- Closed form of the POST /api/domain-tags handler when validation
passes. -/
theorem postDomainTag_unfold (st : Store) (d c : String)
    (hval : ¬ (trimChars d == "" || trimChars c == "") = true) :
    postDomainTag st d c =
      ({ upsertTag st (stripWww (toLowerStr (trimChars d))) c with
          citations :=
            (st.citations.map (setCat c (exactHit (stripWww (toLowerStr (trimChars d)))))).map
              (setCat c (likeHit (stripWww (toLowerStr (trimChars d))))) },
       some ((st.citations.filter (exactHit (stripWww (toLowerStr (trimChars d))))).length +
             ((st.citations.map (setCat c (exactHit (stripWww (toLowerStr (trimChars d)))))).filter
               (likeHit (stripWww (toLowerStr (trimChars d))))).length)) := by
  unfold postDomainTag
  rw [if_neg hval]
  simp only [retroUpdateExact, retroUpdateLike, upsertTag_citations]

/-- C4 (amended): running the upsert-plus-retroactive-recategorization twice
with the same tag always yields the same final store state as running it
once, and the second run reports 0 rows changed provided the tag's category
is not the literal string "unknown". -/
theorem retroRecategorize_idempotent (st : Store) (d c : String) :
    (postDomainTag (postDomainTag st d c).1 d c).1 = (postDomainTag st d c).1 ∧
    (trimChars d ≠ "" → trimChars c ≠ "" → c ≠ "unknown" →
      (postDomainTag (postDomainTag st d c).1 d c).2 = some 0) := by
  by_cases hval : (trimChars d == "" || trimChars c == "") = true
  · have h1 : postDomainTag st d c = (st, none) := by
      unfold postDomainTag
      rw [if_pos hval]
    constructor
    · simp only [h1]
    · intro hd hc _
      exact absurd hval (by simp [hd, hc])
  · set cd := stripWww (toLowerStr (trimChars d)) with hcd
    set F := setCat c (exactHit cd) with hF
    set G := setCat c (likeHit cd) with hG
    have h1 := postDomainTag_unfold st d c hval
    set stA := (postDomainTag st d c).1 with hstA
    have hA : stA = { upsertTag st cd c with citations := (st.citations.map F).map G } := by
      rw [hstA, h1]
    have hAcit : stA.citations = st.citations.map (G ∘ F) := by
      rw [hA]
      simp [List.map_map]
    have hmapF : stA.citations.map F = stA.citations := by
      rw [hAcit, List.map_map]
      apply List.map_congr_left
      intro x _
      simp only [Function.comp_apply]
      exact (setCat_stable cd c x).1
    have hmapG : stA.citations.map G = stA.citations := by
      rw [hAcit, List.map_map]
      apply List.map_congr_left
      intro x _
      simp only [Function.comp_apply]
      exact (setCat_stable cd c x).2
    have hup : upsertTag stA cd c = stA := by
      rw [hA, upsertTag_set_citations, upsertTag_idem]
    have h2 := postDomainTag_unfold stA d c hval
    constructor
    · rw [h2]
      show { upsertTag stA cd c with
          citations := (stA.citations.map F).map G } = stA
      rw [hmapF, hmapG, hup]
    · intro hd hc hcu
      rw [h2]
      show some ((stA.citations.filter (exactHit cd)).length +
        ((stA.citations.map F).filter (likeHit cd)).length) = some 0
      have hc1 : stA.citations.filter (exactHit cd) = [] := by
        rw [List.filter_eq_nil_iff]
        intro x hx
        rw [hAcit] at hx
        obtain ⟨y, hy, rfl⟩ := List.mem_map.mp hx
        simp only [Function.comp_apply]
        simp [(retroCondFalse cd c hcu y).1]
      have hc2 : (stA.citations.map F).filter (likeHit cd) = [] := by
        rw [hmapF, List.filter_eq_nil_iff]
        intro x hx
        rw [hAcit] at hx
        obtain ⟨y, hy, rfl⟩ := List.mem_map.mp hx
        simp only [Function.comp_apply]
        simp [(retroCondFalse cd c hcu y).2]
      rw [hc1, hc2]
      rfl

/-- Counterexample to C4 as stated: upserting the tag
("example.com", "unknown") over a store holding one unknown citation for
"example.com" reports 1 changed row on the second run as well (SQLite counts
rows matched by the WHERE clause even when the value is unchanged), not 0. -/
theorem retroRecategorize_idem_cex :
    (postDomainTag (postDomainTag
        ⟨[], [], [], [⟨1, 1, "https://example.com/a", "example.com", 1, "unknown"⟩], [], 1, 2, 1⟩
        "example.com" "unknown").1 "example.com" "unknown").2 = some 1 ∧
    (postDomainTag (postDomainTag
        ⟨[], [], [], [⟨1, 1, "https://example.com/a", "example.com", 1, "unknown"⟩], [], 1, 2, 1⟩
        "example.com" "unknown").1 "example.com" "unknown").2 ≠ some 0 := by
  refine ⟨by decide, by decide⟩

/-- Witness for C4 (amended): the idempotence theorem applied to a concrete
store and the tag ("example.com", "news"). -/
theorem retroRecategorize_idempotent_witness :
    (postDomainTag (postDomainTag
        ⟨[], [], [], [⟨1, 1, "https://example.com/a", "example.com", 1, "unknown"⟩], [], 1, 2, 1⟩
        "example.com" "news").1 "example.com" "news").1 =
      (postDomainTag
        ⟨[], [], [], [⟨1, 1, "https://example.com/a", "example.com", 1, "unknown"⟩], [], 1, 2, 1⟩
        "example.com" "news").1 ∧
    (postDomainTag (postDomainTag
        ⟨[], [], [], [⟨1, 1, "https://example.com/a", "example.com", 1, "unknown"⟩], [], 1, 2, 1⟩
        "example.com" "news").1 "example.com" "news").2 = some 0 :=
  ⟨(retroRecategorize_idempotent
      ⟨[], [], [], [⟨1, 1, "https://example.com/a", "example.com", 1, "unknown"⟩], [], 1, 2, 1⟩
      "example.com" "news").1,
   (retroRecategorize_idempotent
      ⟨[], [], [], [⟨1, 1, "https://example.com/a", "example.com", 1, "unknown"⟩], [], 1, 2, 1⟩
      "example.com" "news").2 (by decide) (by decide) (by decide)⟩

/-! ## Claim C1 — run recording -/

/-- Closed form of the citation-insert loop: it appends the citation rows and
advances the autoincrement id. -/
theorem insertCitationRows_eq (runId : Nat) (cits : List CitInput) (st : Store) :
    insertCitationRows st runId cits =
      { st with citations := st.citations ++ citRowsFrom runId st.nextCitationId cits,
                nextCitationId := st.nextCitationId + cits.length } := by
  induction cits generalizing st with
  | nil => simp [insertCitationRows, citRowsFrom]
  | cons c cs ih =>
    show List.foldl _ _ (c :: cs) = _
    rw [List.foldl_cons]
    rw [show ∀ s, List.foldl _ s cs = insertCitationRows s runId cs from fun s => rfl]
    rw [ih]
    cases st
    simp [citRowsFrom, List.append_assoc]
    omega

/-- C1 (amended): the run row is always stored — committed by its own
statement before the citation transaction — while the citation rows are
written atomically: after the operation the store holds either all of them
(commit) or none of them (rollback).  In particular a citation-insert failure
leaves the run row stored with an empty citation list. -/
theorem recordRun_spec (st : Store) (queryId : Nat) (raw text model : String) (cost : ℚ)
    (cits : List CitInput) (txn : TxnOutcome) :
    (recordRun st queryId raw text model cost cits txn).1.runs =
      st.runs ++ [⟨st.nextRunId, queryId, raw, text, model, cost, cits.length,
        (cits.filter (fun c => c.category == "owned")).length⟩] ∧
    (recordRun st queryId raw text model cost cits txn).1.citations =
      st.citations ++ (match txn with
        | TxnOutcome.commit => citRowsFrom st.nextRunId st.nextCitationId cits
        | TxnOutcome.rollback => []) := by
  cases txn <;> simp [recordRun, insertRunRow, insertCitationRows_eq]

/-- Counterexample to C1 as stated: a rollback of the citation transaction
(e.g. a NOT NULL violation on one citation row) leaves a store in which the
run row (with citation_count = 2) is stored but none of its citations are —
so the run and its citation list are not written as a single atomic unit. -/
theorem recordRun_atomic_cex :
    ((recordRun ⟨[], [⟨7, 1, "q"⟩], [], [], [], 1, 1, 1⟩ 7 "raw" "answer" "sonar" 0
        [⟨"https://a.example/x", "a.example", 1, "unknown"⟩,
         ⟨"https://b.example/y", "b.example", 2, "unknown"⟩]
        TxnOutcome.rollback).1.runs.map (fun r => (r.queryId, r.citationCount)) = [(7, 2)]) ∧
    (recordRun ⟨[], [⟨7, 1, "q"⟩], [], [], [], 1, 1, 1⟩ 7 "raw" "answer" "sonar" 0
        [⟨"https://a.example/x", "a.example", 1, "unknown"⟩,
         ⟨"https://b.example/y", "b.example", 2, "unknown"⟩]
        TxnOutcome.rollback).1.citations = [] := by
  refine ⟨by decide, by decide⟩

/-! ## Claim C9 — upsert provenance -/

/-- find? skips a prefix in which nothing matches. -/
theorem find?_append_of_none {α : Type} {l₁ l₂ : List α} {p : α → Bool}
    (h : l₁.find? p = none) : (l₁ ++ l₂).find? p = l₂.find? p := by
  induction l₁ with
  | nil => rfl
  | cons a l ih =>
    have ha : ¬ p a = true := by
      intro hp
      rw [List.find?_cons_of_pos l hp] at h
      cases h
    have hl : l.find? p = none := by
      rw [List.find?_cons_of_neg l ha] at h
      exact h
    rw [List.cons_append, List.find?_cons_of_neg _ ha]
    exact ih hl

/-- find? by id over an id-preserving map of a list with distinct ids returns
the image of the unique element with that id. -/
theorem find?_id_map (l : List DomainTag) (f : DomainTag → DomainTag)
    (hf : ∀ u, (f u).id = u.id) (t0 : DomainTag) (h0 : t0 ∈ l)
    (hu : l.Pairwise (fun a b => a.id ≠ b.id)) :
    (l.map f).find? (fun u => u.id == t0.id) = some (f t0) := by
  induction l with
  | nil => cases h0
  | cons a l ih =>
    obtain ⟨ha, hl⟩ := List.pairwise_cons.mp hu
    rcases List.mem_cons.mp h0 with rfl | h0
    · rw [List.map_cons, List.find?_cons_of_pos]
      simp [hf]
    · rw [List.map_cons, List.find?_cons_of_neg]
      · exact ih h0 hl
      · simp [hf]
        exact ha t0 h0
/-- C9: a tag upsert always stores the tag for the normalized domain with
provenance user — also when the previous tag was a system seed — and the
resulting tag is deletable: DELETE on its id succeeds and removes the row. -/
theorem postDomainTag_user_provenance (st : Store) (d c : String)
    (hwf : TagsWF st) (hd : trimChars d ≠ "") (hc : trimChars c ≠ "") :
    ∃ t : DomainTag,
      t ∈ (postDomainTag st d c).1.tags ∧
      t.domain = stripWww (toLowerStr (trimChars d)) ∧
      t.src = Source.user ∧
      (deleteDomainTag (postDomainTag st d c).1 t.id).1 = DeleteResult.success ∧
      t ∉ (deleteDomainTag (postDomainTag st d c).1 t.id).2.tags := by
  obtain ⟨hpair, hlt⟩ := hwf
  have hval : ¬ (trimChars d == "" || trimChars c == "") = true := by simp [hd, hc]
  have hptags : (postDomainTag st d c).1.tags =
      (upsertTag st (stripWww (toLowerStr (trimChars d))) c).tags := by
    rw [postDomainTag_unfold st d c hval]
  set cd := stripWww (toLowerStr (trimChars d)) with hcd
  by_cases h : st.tags.any (fun t => t.domain == cd) = true
  · obtain ⟨t0, ht0, ht0d⟩ := List.any_eq_true.mp h
    have hup : (upsertTag st cd c).tags = st.tags.map (fun t =>
        if t.domain == cd then { t with category := c, src := Source.user } else t) := by
      unfold upsertTag
      rw [if_pos h]
    have hft0 : (fun t : DomainTag =>
        if t.domain == cd then { t with category := c, src := Source.user } else t) t0 =
        { t0 with category := c, src := Source.user } := by
      simp [ht0d]
    have hfind : (postDomainTag st d c).1.tags.find?
        (fun u => u.id == ({ t0 with category := c, src := Source.user } : DomainTag).id) =
        some { t0 with category := c, src := Source.user } := by
      rw [hptags, hup]
      have := find?_id_map st.tags
        (fun t => if t.domain == cd then { t with category := c, src := Source.user } else t)
        (fun u => by by_cases hb : (u.domain == cd) = true <;> simp [hb]) t0 ht0
        (hpair.imp (fun hab => hab.1))
      rw [hft0] at this
      exact this
    refine ⟨{ t0 with category := c, src := Source.user }, ?_, by simpa using ht0d, rfl, ?_, ?_⟩
    · rw [hptags, hup]
      exact hft0 ▸ List.mem_map_of_mem _ ht0
    · unfold deleteDomainTag
      rw [hfind]
      rfl
    · unfold deleteDomainTag
      rw [hfind]
      simp [List.mem_filter]
  · have hup : (upsertTag st cd c).tags =
        st.tags ++ [⟨st.nextTagId, cd, c, Source.user⟩] := by
      unfold upsertTag
      rw [if_neg h]
    have hfind : (postDomainTag st d c).1.tags.find?
        (fun u => u.id == ((⟨st.nextTagId, cd, c, Source.user⟩ : DomainTag)).id) =
        some ⟨st.nextTagId, cd, c, Source.user⟩ := by
      rw [hptags, hup]
      rw [find?_append_of_none]
      · rw [List.find?_cons_of_pos]
        simp
      · rw [List.find?_eq_none]
        intro t ht
        have := hlt t ht
        simp only [beq_iff_eq]
        omega
    refine ⟨⟨st.nextTagId, cd, c, Source.user⟩, ?_, rfl, rfl, ?_, ?_⟩
    · rw [hptags, hup]
      exact List.mem_append_right _ (List.mem_singleton.mpr rfl)
    · unfold deleteDomainTag
      rw [hfind]
      rfl
    · unfold deleteDomainTag
      rw [hfind]
      simp [List.mem_filter]

/-- Witness for C9: the theorem applied to a store holding the seeded system
tag for "coindesk.com" and the user upsert ("www.CoinDesk.com", "blog"). -/
theorem postDomainTag_user_provenance_witness :
    ∃ t : DomainTag,
      t ∈ (postDomainTag
        ⟨[], [], [], [], [⟨1, "coindesk.com", "news", Source.system⟩], 1, 1, 2⟩
        "www.CoinDesk.com" "blog").1.tags ∧
      t.domain = stripWww (toLowerStr (trimChars "www.CoinDesk.com")) ∧
      t.src = Source.user ∧
      (deleteDomainTag (postDomainTag
        ⟨[], [], [], [], [⟨1, "coindesk.com", "news", Source.system⟩], 1, 1, 2⟩
        "www.CoinDesk.com" "blog").1 t.id).1 = DeleteResult.success ∧
      t ∉ (deleteDomainTag (postDomainTag
        ⟨[], [], [], [], [⟨1, "coindesk.com", "news", Source.system⟩], 1, 1, 2⟩
        "www.CoinDesk.com" "blog").1 t.id).2.tags :=
  postDomainTag_user_provenance
    ⟨[], [], [], [], [⟨1, "coindesk.com", "news", Source.system⟩], 1, 1, 2⟩
    "www.CoinDesk.com" "blog" (by constructor <;> decide) (by decide) (by decide)


/-! ## Claim C7 — batch analysis absorbs per-item failures -/

/-- One batch iteration never modifies the queries table. -/
theorem batchItem_queries (hostOf : String → Option String) (st : Store) (qid : Nat)
    (model : String) (up : Upstream) :
    (batchItem hostOf st qid model up).1.queries = st.queries := by
  unfold batchItem
  cases hfind : st.queries.find? (fun q => q.id == qid) with
  | none => rfl
  | some q =>
    cases up with
    | ok raw text cits => simp [insertRunRow, insertCitationRows_eq]
    | httpError s b => rfl
    | exn m => rfl

/-- Every results entry carries the query id of its iteration. -/
theorem batchItem_entry_qid (hostOf : String → Option String) (st : Store) (qid : Nat)
    (model : String) (up : Upstream) :
    entryQueryId (batchItem hostOf st qid model up).2 = qid := by
  unfold batchItem
  cases hfind : st.queries.find? (fun q => q.id == qid) with
  | none => rfl
  | some q =>
    cases up with
    | ok raw text cits => rfl
    | httpError s b => rfl
    | exn m => rfl

/-- One batch iteration appends runs only for its own query id, and only when
the query exists. -/
theorem batchItem_runs (hostOf : String → Option String) (st : Store) (qid : Nat)
    (model : String) (up : Upstream) :
    ∃ L, (batchItem hostOf st qid model up).1.runs = st.runs ++ L ∧
      ∀ r ∈ L, r.queryId = qid ∧ st.queries.find? (fun q => q.id == qid) ≠ none := by
  unfold batchItem
  cases hfind : st.queries.find? (fun q => q.id == qid) with
  | none => exact ⟨[], by simp, nofun⟩
  | some q =>
    cases up with
    | ok raw text cits =>
      refine ⟨[⟨st.nextRunId, qid, raw, text, model, estimateCost model 1, cits.length,
        ((categorizeCitations hostOf (tagLookup st) (clientOwnedDomains st q) cits 0).filter
          (fun c : CitInput => c.category == "owned")).length⟩],
        by simp [insertRunRow, insertCitationRows_eq], ?_⟩
      intro r hr
      rw [List.mem_singleton] at hr
      subst hr
      exact ⟨rfl, by simp [hfind]⟩
    | httpError s b => exact ⟨[], by simp, nofun⟩
    | exn m => exact ⟨[], by simp, nofun⟩

/-- A missing query id produces an error entry and leaves the store
untouched. -/
theorem batchItem_none (hostOf : String → Option String) (st : Store) (qid : Nat)
    (model : String) (up : Upstream)
    (hq : st.queries.find? (fun q => q.id == qid) = none) :
    batchItem hostOf st qid model up = (st, BatchEntry.err qid "Query not found") := by
  unfold batchItem
  rw [hq]

/-- A found query with an OK upstream response produces a success entry and
persists a run for that query id. -/
theorem batchItem_ok (hostOf : String → Option String) (st : Store) (qid : Nat)
    (model : String) (q : Query) (raw text : String) (cits : List String)
    (hq : st.queries.find? (fun q' => q'.id == qid) = some q) :
    (∃ rid oc, (batchItem hostOf st qid model (Upstream.ok raw text cits)).2 =
        BatchEntry.done qid rid cits.length oc) ∧
      ∃ run ∈ (batchItem hostOf st qid model (Upstream.ok raw text cits)).1.runs,
        run.queryId = qid := by
  unfold batchItem
  rw [hq]
  dsimp only
  constructor
  · exact ⟨st.nextRunId,
      ((categorizeCitations hostOf (tagLookup st) (clientOwnedDomains st q) cits 0).filter
        (fun c : CitInput => c.category == "owned")).length, rfl⟩
  · refine ⟨⟨st.nextRunId, qid, raw, text, model, estimateCost model 1, cits.length,
      ((categorizeCitations hostOf (tagLookup st) (clientOwnedDomains st q) cits 0).filter
        (fun c : CitInput => c.category == "owned")).length⟩, ?_, rfl⟩
    simp [insertRunRow, insertCitationRows_eq]

/-- Invariant of the batch loop, by induction over the remaining query
ids. -/
theorem analyzeBatchAux_spec (hostOf : String → Option String) (model : String)
    (ups : Nat → Upstream) (qids : List Nat) (i : Nat) (st : Store) :
    (analyzeBatchAux hostOf model ups qids i st).1.queries = st.queries ∧
    (∃ L, (analyzeBatchAux hostOf model ups qids i st).1.runs = st.runs ++ L ∧
      ∀ r ∈ L, st.queries.find? (fun q => q.id == r.queryId) ≠ none) ∧
    (analyzeBatchAux hostOf model ups qids i st).2.map entryQueryId = qids ∧
    (∀ (j : Nat) (qid : Nat), qids[j]? = some qid → st.queries.find? (fun q => q.id == qid) = none →
      (analyzeBatchAux hostOf model ups qids i st).2[j]? =
        some (BatchEntry.err qid "Query not found")) ∧
    (∀ (j : Nat) (qid : Nat) (raw text : String) (cits : List String), qids[j]? = some qid →
      st.queries.find? (fun q => q.id == qid) ≠ none →
      ups (i + j) = Upstream.ok raw text cits →
      (∃ rid oc, (analyzeBatchAux hostOf model ups qids i st).2[j]? =
        some (BatchEntry.done qid rid cits.length oc)) ∧
      ∃ r ∈ (analyzeBatchAux hostOf model ups qids i st).1.runs, r.queryId = qid) := by
  induction qids generalizing i st with
  | nil =>
    refine ⟨rfl, ⟨[], by simp [analyzeBatchAux], nofun⟩, rfl, ?_, ?_⟩
    · intro j qid hj _
      simp at hj
    · intro j qid raw text cits hj _ _
      simp at hj
  | cons qid rest ih =>
    have hq := batchItem_queries hostOf st qid model (ups i)
    obtain ⟨L1, hL1, hL1p⟩ := batchItem_runs hostOf st qid model (ups i)
    set st1 := (batchItem hostOf st qid model (ups i)).1 with hst1
    have heq : analyzeBatchAux hostOf model ups (qid :: rest) i st =
        ((analyzeBatchAux hostOf model ups rest (i + 1) st1).1,
         (batchItem hostOf st qid model (ups i)).2 ::
           (analyzeBatchAux hostOf model ups rest (i + 1) st1).2) := rfl
    obtain ⟨ihq, ⟨L2, hL2, hL2p⟩, ihmap, ihnf, ihok⟩ := ih (i + 1) st1
    rw [heq]
    refine ⟨?_, ⟨L1 ++ L2, ?_, ?_⟩, ?_, ?_, ?_⟩
    · exact ihq.trans hq
    · rw [hL2, hL1, List.append_assoc]
    · intro r hr
      rcases List.mem_append.mp hr with h1 | h2
      · obtain ⟨hrq, hne⟩ := hL1p r h1
        rw [hrq]
        exact hne
      · have := hL2p r h2
        rwa [hq] at this
    · simp only [List.map_cons, ihmap, batchItem_entry_qid]
    · intro j qid' hj hnone
      cases j with
      | zero =>
        simp only [List.getElem?_cons_zero, Option.some.injEq] at hj
        subst hj
        have hbn := batchItem_none hostOf st qid model (ups i) hnone
        simp only [List.getElem?_cons_zero, Option.some.injEq]
        rw [hbn]
      | succ j =>
        simp only [List.getElem?_cons_succ] at hj ⊢
        have hnone1 : st1.queries.find? (fun q => q.id == qid') = none := by
          rw [hq]
          exact hnone
        exact ihnf j qid' hj hnone1
    · intro j qid' raw text cits hj hfind hup
      cases j with
      | zero =>
        simp only [List.getElem?_cons_zero, Option.some.injEq] at hj
        subst hj
        rw [Nat.add_zero] at hup
        obtain ⟨q, hq'⟩ := Option.ne_none_iff_exists'.mp hfind
        have hok := batchItem_ok hostOf st qid model q raw text cits hq'
        constructor
        · obtain ⟨rid, oc, he⟩ := hok.1
          refine ⟨rid, oc, ?_⟩
          simp only [List.getElem?_cons_zero, Option.some.injEq]
          rw [hup]
          exact he
        · obtain ⟨run, hmem, hqid⟩ := hok.2
          refine ⟨run, ?_, hqid⟩
          rw [hL2]
          apply List.mem_append_left
          rw [hst1, hup]
          exact hmem
      | succ j =>
        simp only [List.getElem?_cons_succ] at hj ⊢
        have hfind1 : st1.queries.find? (fun q => q.id == qid') ≠ none := by
          rw [hq]
          exact hfind
        have hup' : ups (i + 1 + j) = Upstream.ok raw text cits := by
          rw [show i + 1 + j = i + (j + 1) from by omega]
          exact hup
        exact ihok j qid' raw text cits hj hfind1 hup'

/-- C7: the batch results array has exactly one entry per input id in input
order; an id with no matching query yields the error entry at its index and
no run is persisted for it, while every other id whose upstream call returns
OK still gets a success entry at its index and a persisted run — one item's
failure never aborts the batch. -/
theorem analyzeBatch_partial_failure (hostOf : String → Option String) (st : Store)
    (qids : List Nat) (model : String) (ups : Nat → Upstream) :
    ((analyzeBatch hostOf st qids model ups).2.map entryQueryId = qids) ∧
    (∀ (j : Nat) (qid : Nat), qids[j]? = some qid →
      st.queries.find? (fun q => q.id == qid) = none →
      (analyzeBatch hostOf st qids model ups).2[j]? =
        some (BatchEntry.err qid "Query not found")) ∧
    (∀ qid : Nat, st.queries.find? (fun q => q.id == qid) = none →
      (analyzeBatch hostOf st qids model ups).1.runs.filter (fun r => r.queryId == qid) =
        st.runs.filter (fun r => r.queryId == qid)) ∧
    (∀ (j : Nat) (qid : Nat) (raw text : String) (cits : List String),
      qids[j]? = some qid →
      st.queries.find? (fun q => q.id == qid) ≠ none →
      ups j = Upstream.ok raw text cits →
      (∃ rid oc, (analyzeBatch hostOf st qids model ups).2[j]? =
        some (BatchEntry.done qid rid cits.length oc)) ∧
      ∃ r ∈ (analyzeBatch hostOf st qids model ups).1.runs, r.queryId = qid) := by
  obtain ⟨hq, ⟨L, hL, hLp⟩, hmap, hnf, hok⟩ := analyzeBatchAux_spec hostOf model ups qids 0 st
  refine ⟨hmap, hnf, ?_, ?_⟩
  · intro qid hnone
    rw [show analyzeBatch hostOf st qids model ups =
      analyzeBatchAux hostOf model ups qids 0 st from rfl, hL, List.filter_append]
    have hLnil : L.filter (fun r => r.queryId == qid) = [] := by
      rw [List.filter_eq_nil_iff]
      intro r hr hb
      have hrq : r.queryId = qid := by simpa using hb
      exact hLp r hr (hrq ▸ hnone)
    rw [hLnil, List.append_nil]
  · intro j qid raw text cits hj hfind hup
    exact hok j qid raw text cits hj hfind (by simpa using hup)

/-- Witness for C7: a 3-id batch over a store where the second id does not
exist. -/
theorem analyzeBatch_partial_failure_witness :
    ((analyzeBatch (fun _ => none)
        ⟨[⟨1, []⟩], [⟨10, 1, "q1"⟩, ⟨30, 1, "q3"⟩], [], [], [], 1, 1, 1⟩
        [10, 20, 30] "sonar" (fun _ => Upstream.ok "" "" [])).2[1]? =
      some (BatchEntry.err 20 "Query not found")) ∧
    ((analyzeBatch (fun _ => none)
        ⟨[⟨1, []⟩], [⟨10, 1, "q1"⟩, ⟨30, 1, "q3"⟩], [], [], [], 1, 1, 1⟩
        [10, 20, 30] "sonar" (fun _ => Upstream.ok "" "" [])).1.runs.filter
          (fun r => r.queryId == 20) = []) ∧
    (∃ rid oc, (analyzeBatch (fun _ => none)
        ⟨[⟨1, []⟩], [⟨10, 1, "q1"⟩, ⟨30, 1, "q3"⟩], [], [], [], 1, 1, 1⟩
        [10, 20, 30] "sonar" (fun _ => Upstream.ok "" "" [])).2[0]? =
      some (BatchEntry.done 10 rid 0 oc)) :=
  ⟨(analyzeBatch_partial_failure (fun _ => none)
      ⟨[⟨1, []⟩], [⟨10, 1, "q1"⟩, ⟨30, 1, "q3"⟩], [], [], [], 1, 1, 1⟩
      [10, 20, 30] "sonar" (fun _ => Upstream.ok "" "" [])).2.1 1 20 (by decide) (by decide),
   (analyzeBatch_partial_failure (fun _ => none)
      ⟨[⟨1, []⟩], [⟨10, 1, "q1"⟩, ⟨30, 1, "q3"⟩], [], [], [], 1, 1, 1⟩
      [10, 20, 30] "sonar" (fun _ => Upstream.ok "" "" [])).2.2.1 20 (by decide),
   ((analyzeBatch_partial_failure (fun _ => none)
      ⟨[⟨1, []⟩], [⟨10, 1, "q1"⟩, ⟨30, 1, "q3"⟩], [], [], [], 1, 1, 1⟩
      [10, 20, 30] "sonar" (fun _ => Upstream.ok "" "" [])).2.2.2 0 10 "" "" []
      (by decide) (by decide) rfl).1⟩


end SourceTracker
